import Mathlib

/-!
Shallow embedding of the cross-section spline cache of
src/Framework/Utils/XSecSplineList.cxx (class genie::XSecSplineList).

Modelling choices:
- C++ `double` values are modelled by an arbitrary `LinearOrderedField R`
  (instantiated at `Real` for the logarithmic knot spacing, at `Rat` for
  concrete evaluation).  `TMath::Log10` and `TMath::Power(10, .)` are passed
  as explicit function parameters `log10` and `pow10`.
- `std::map<string, Spline*>` is modelled as a key-sorted association list;
  `std::map::insert` inserts at the sorted position when the key is absent and
  otherwise leaves the existing entry unchanged (it never overwrites).
- `std::set<string>` (fInitSet) is modelled as a sorted list of strings.
- The XML file written by SaveAsXml and read by LoadFromXml is modelled as a
  structured document (root element name, `uselog` attribute as the integer
  `atoi` yields, and a list of spline blocks each carrying the `name` and
  `nknots` attributes and the (E, xsec) knot pairs).  An unopenable file is
  `Option.none`.
-/

namespace genie

/-- External interpolation primitive `Spline(nknots, E, xsec)`
(Framework/Numerical/Spline.h, out of scope): stores the ordered
(energy, cross-section) knot pairs.  Interpolation math is not modelled. -/
structure Spline (R : Type) where
  knots : List (R × R)
deriving DecidableEq

/-- External `Interaction` collaborator: canonical string (`AsString()`) and
threshold energy (`PhaseSpace().Threshold()`).  The temporary probe
four-momentum mutation performed inside CreateSpline is not observable
through the store and is not modelled. -/
structure Interaction (R : Type) where
  asString : String
  threshold : R

/-- External `XSecAlgorithmI` collaborator: `Id().Name()`, `Id().Config()`, and
`Integral(interaction)` evaluated after `SetProbeP4` with probe energy E,
modelled as a function of the interaction and the probe energy. -/
structure XSecAlgorithmI (R : Type) where
  name : String
  config : String
  integral : Interaction R → R → R

/-- `XmlParserStatus_t` (Framework/Conventions/XmlParserStatus.h is not under
src).  Modelled from the spec: the statuses OK, not-parsed, empty,
invalid-root, plus the distinct "not found" status the spec postulates for a
path that cannot be opened. -/
inductive XmlParserStatus where
  | kXmlOK
  | kXmlNotParsed
  | kXmlEmpty
  | kXmlInvalidRoot
  | kXmlNotFound
deriving DecidableEq

/-- The state of a genie::XSecSplineList instance: the global numerical
defaults, the key-to-spline map, and the set of keys that came from a file
load (fInitSet), exactly the data members used by XSecSplineList.cxx. -/
structure XSecSplineList (R : Type) where
  fUseLogE : Bool
  fNKnots : Int
  fEmin : R
  fEmax : R
  fSplineMap : List (String × Spline R)
  fInitSet : List String
deriving DecidableEq

/-- The fresh instance built by the XSecSplineList constructor:
log-energy on, 100 knots, Emin = 0.01 GeV, Emax = 100 GeV, empty maps. -/
def initialList (R : Type) [LinearOrderedField R] : XSecSplineList R :=
  { fUseLogE := true
    fNKnots := 100
    fEmin := 1 / 100
    fEmax := 100
    fSplineMap := []
    fInitSet := [] }

/-- `std::map<string, Spline*>::insert`: walks the ordered entries, inserts a
new entry at its sorted position if the key is absent, and leaves the map
unchanged (keeping the existing entry) if the key is already present. -/
def mapInsert {R : Type} (k : String) (v : Spline R) :
    List (String × Spline R) → List (String × Spline R)
  | [] => [(k, v)]
  | (k1, v1) :: rest =>
    if k < k1 then (k, v) :: (k1, v1) :: rest
    else if k = k1 then (k1, v1) :: rest
    else (k1, v1) :: mapInsert k v rest

/-- `std::set<string>::insert` on the sorted key set. -/
def setInsert (k : String) : List String → List String
  | [] => [k]
  | k1 :: rest =>
    if k < k1 then k :: k1 :: rest
    else if k = k1 then k1 :: rest
    else k1 :: setInsert k rest

/-- Invariant of the modelled `std::map`: the keys are strictly increasing. -/
def MapWF {R : Type} (m : List (String × Spline R)) : Prop :=
  (m.map Prod.fst).Pairwise (fun a b => a < b)

/-- XSecSplineList::BuildSplineKey: empty string if either pointer is null,
otherwise algorithm name, configuration and interaction canonical string
joined by the slash delimiter. -/
def BuildSplineKey {R : Type} (alg : Option (XSecAlgorithmI R))
    (interaction : Option (Interaction R)) : String :=
  match alg with
  | none => ""
  | some a =>
    match interaction with
    | none => ""
    | some i => a.name ++ "/" ++ a.config ++ "/" ++ i.asString

/-- XSecSplineList::SetLogE. -/
def SetLogE {R : Type} (s : XSecSplineList R) (b : Bool) : XSecSplineList R :=
  { s with fUseLogE := b }

/-- XSecSplineList::SetNKnots: stores nk, then floors the stored value to the
minimum acceptable number of knots, 10. -/
def SetNKnots {R : Type} (s : XSecSplineList R) (nk : Int) : XSecSplineList R :=
  let stored := nk
  let stored := if stored < 10 then 10 else stored
  { s with fNKnots := stored }

/-- XSecSplineList::SetMinE: ignores non-positive input. -/
def SetMinE {R : Type} [LinearOrderedField R] (s : XSecSplineList R) (Ev : R) :
    XSecSplineList R :=
  if 0 < Ev then { s with fEmin := Ev } else s

/-- XSecSplineList::SetMaxE: ignores non-positive input. -/
def SetMaxE {R : Type} [LinearOrderedField R] (s : XSecSplineList R) (Ev : R) :
    XSecSplineList R :=
  if 0 < Ev then { s with fEmax := Ev } else s

/-- XSecSplineList::GetSplineKeys: the keys in map (iteration) order. -/
def GetSplineKeys {R : Type} (s : XSecSplineList R) : List String :=
  s.fSplineMap.map Prod.fst

/-- XSecSplineList::SplineExists(string): fSplineMap.count(key) == 1. -/
def SplineExists {R : Type} (s : XSecSplineList R) (key : String) : Bool :=
  (s.fSplineMap.map Prod.fst).count key == 1

/-- XSecSplineList::GetSpline(string): the stored spline, or none. -/
def GetSpline {R : Type} (s : XSecSplineList R) (key : String) :
    Option (Spline R) :=
  if SplineExists s key then s.fSplineMap.lookup key else none

/-- The knot energy placement of XSecSplineList::CreateSpline
(lines 150-175): 5 linearly spaced knots below threshold when the threshold
exceeds e_min (none otherwise), then the remaining knots from
max(Ethr, e_min) to e_max, spaced linearly or logarithmically (equal steps in
log10) according to the use-log-energy flag. -/
def planKnots {R : Type} [LinearOrderedField R] (log10 pow10 : R → R)
    (useLogE : Bool) (nknots : Int) (e_min e_max Ethr : R) : List R :=
  let nkb : Int := if e_min < Ethr then 5 else 0
  let nka : Int := nknots - nkb
  let dEb : R := if e_min < Ethr then (Ethr - e_min) / (nkb : R) else 0
  let Eb : List R := (List.range nkb.toNat).map
    (fun (i : Nat) => e_min + (i : R) * dEb)
  let E0 : R := max Ethr e_min
  let dEa : R :=
    if useLogE then (log10 e_max - log10 E0) / ((nka : R) - 1)
    else (e_max - E0) / ((nka : R) - 1)
  let Ea : List R := (List.range nka.toNat).map (fun (i : Nat) =>
    if useLogE then pow10 (log10 E0 + (i : R) * dEa) else E0 + (i : R) * dEa)
  Eb ++ Ea

/-- Defaulting of the per-call knot count in CreateSpline:
values not above 2 fall back to the list-wide value. -/
def effNKnots {R : Type} (s : XSecSplineList R) (nknots : Int) : Int :=
  if nknots ≤ 2 then s.fNKnots else nknots

/-- Defaulting of the per-call minimum energy in CreateSpline:
negative values fall back to the list-wide value. -/
def effEmin {R : Type} [LinearOrderedField R] (s : XSecSplineList R)
    (e_min : R) : R :=
  if e_min < 0 then s.fEmin else e_min

/-- Defaulting of the per-call maximum energy in CreateSpline:
negative values fall back to the list-wide value. -/
def effEmax {R : Type} [LinearOrderedField R] (s : XSecSplineList R)
    (e_max : R) : R :=
  if e_max < 0 then s.fEmax else e_max

/-- The spline a CreateSpline call builds from state s: the planned energies
paired with the cross sections the algorithm integrates at those energies. -/
def createdSpline {R : Type} [LinearOrderedField R] (log10 pow10 : R → R)
    (s : XSecSplineList R) (alg : XSecAlgorithmI R)
    (interaction : Interaction R) (nknots : Int) (e_min e_max : R) : Spline R :=
  let Es := planKnots log10 pow10 s.fUseLogE (effNKnots s nknots)
    (effEmin s e_min) (effEmax s e_max) interaction.threshold
  { knots := Es.map (fun e => (e, alg.integral interaction e)) }

/-- XSecSplineList::CreateSpline: defaults the overrides, asserts
e_min < e_max (the failed assert aborts: none), plans the knots, integrates
the cross sections, and inserts the new spline into fSplineMap under the
built key via std::map::insert. -/
def CreateSpline {R : Type} [LinearOrderedField R] (log10 pow10 : R → R)
    (s : XSecSplineList R) (alg : XSecAlgorithmI R)
    (interaction : Interaction R) (nknots : Int) (e_min e_max : R) :
    Option (XSecSplineList R) :=
  let key := BuildSplineKey (some alg) (some interaction)
  let sp := createdSpline log10 pow10 s alg interaction nknots e_min e_max
  if effEmin s e_min < effEmax s e_max then
    some { s with fSplineMap := mapInsert key sp s.fSplineMap }
  else none

/-- One spline block of the XML document: the `name` and `nknots` attributes
and the ordered (E, xsec) knot pairs. -/
structure SplineXml (R : Type) where
  name : String
  nknots : Int
  knots : List (R × R)
deriving DecidableEq

/-- The XML document: root element name, the integer value `atoi` extracts
from the `uselog` attribute, and the spline blocks in document order. -/
structure XmlFile (R : Type) where
  rootName : String
  uselog : Int
  splines : List (SplineXml R)
deriving DecidableEq

/-- `Spline::SaveAsXml(outxml, "E", "xsec", key, true)` — the Spline class is
not under src.  Modelled from the spec: writes one spline element whose
`name` attribute is the key and whose `nknots` attribute is the number of
knots, containing one knot element with an E child and an xsec child per
stored knot pair. -/
def splineSaveAsXml {R : Type} (key : String) (sp : Spline R) : SplineXml R :=
  { name := key, nknots := (sp.knots.length : Int), knots := sp.knots }

/-- XSecSplineList::SaveAsXml: writes the root element
genie_xsec_spline_list with uselog = 1 or 0, then one spline block per map
entry in map order, skipping entries whose key is in fInitSet when
save_init is false. -/
def SaveAsXml {R : Type} (s : XSecSplineList R) (save_init : Bool) : XmlFile R :=
  { rootName := "genie_xsec_spline_list"
    uselog := if s.fUseLogE then 1 else 0
    splines := (s.fSplineMap.filter
        (fun kv => !(s.fInitSet.contains kv.1 && !save_init))).map
      (fun kv => splineSaveAsXml kv.1 kv.2) }

/-- The closing-spline-tag action of the LoadFromXml reader loop: a Spline is
built from the declared-size buffers and inserted via std::map::insert, and
the spline name is added to fInitSet.  The buffers hold the parsed knot
values positionally; entries beyond the values actually present in the file
are uninitialized memory in the source and are not modelled (files written
by SaveAsXml always declare nknots equal to the number of knot blocks). -/
def loadSplineEntry {R : Type} (st : XSecSplineList R) (sp : SplineXml R) :
    XSecSplineList R :=
  { st with
    fSplineMap :=
      mapInsert sp.name { knots := sp.knots.take sp.nknots.toNat } st.fSplineMap
    fInitSet := setInsert sp.name st.fInitSet }

/-- XSecSplineList::LoadFromXml: clears fSplineMap first when keep is false;
an unopenable file (none) is logged and the method falls through to
`return kXmlOK`; a root element other than genie_xsec_spline_list returns
kXmlInvalidRoot; otherwise the uselog attribute sets the log-energy flag
(SetLogE(atoi(uselog) == 1)) and every spline block is inserted into the map
and its name added to fInitSet, and the call returns kXmlOK. -/
def LoadFromXml {R : Type} (s : XSecSplineList R) (file : Option (XmlFile R))
    (keep : Bool) : XmlParserStatus × XSecSplineList R :=
  let s0 := if keep then s else { s with fSplineMap := [] }
  match file with
  | none => (XmlParserStatus.kXmlOK, s0)
  | some f =>
    if f.rootName ≠ "genie_xsec_spline_list" then
      (XmlParserStatus.kXmlInvalidRoot, s0)
    else
      let s1 := SetLogE s0 (f.uselog == 1)
      (XmlParserStatus.kXmlOK, f.splines.foldl loadSplineEntry s1)

/-! ### Helper lemmas about the modelled containers -/

theorem lookup_cons_self {R : Type} (k : String) (v : Spline R)
    (t : List (String × Spline R)) : List.lookup k ((k, v) :: t) = some v := by
  rw [List.lookup_cons]
  rw [show (k == k) = true from beq_self_eq_true k]

theorem lookup_cons_ne {R : Type} {a k : String} (h : a ≠ k) (v : Spline R)
    (t : List (String × Spline R)) :
    List.lookup a ((k, v) :: t) = List.lookup a t := by
  rw [List.lookup_cons]
  rw [beq_false_of_ne h]

/-- Inserting an already-present key leaves a cons cell headed by that key
unchanged (the second branch of std::map::insert). -/
theorem mapInsert_cons_self {R : Type} (k : String) (v w : Spline R)
    (t : List (String × Spline R)) : mapInsert k v ((k, w) :: t) = (k, w) :: t := by
  rw [mapInsert]
  rw [if_neg (lt_irrefl k), if_pos rfl]

/-- std::map::insert on a fresh key makes the key retrievable. -/
theorem lookup_mapInsert_self {R : Type} {m : List (String × Spline R)}
    {k : String} (v : Spline R) (h : List.lookup k m = none) :
    List.lookup k (mapInsert k v m) = some v := by
  induction m with
  | nil => exact lookup_cons_self k v []
  | cons kv t ih =>
    obtain ⟨k1, v1⟩ := kv
    have hne : k ≠ k1 := by
      intro hkk
      rw [hkk, lookup_cons_self] at h
      exact Option.noConfusion h
    rw [lookup_cons_ne hne v1 t] at h
    rw [mapInsert]
    by_cases hlt : k < k1
    · rw [if_pos hlt]
      exact lookup_cons_self k v _
    · rw [if_neg hlt, if_neg hne]
      rw [lookup_cons_ne hne v1 _]
      exact ih h

/-- std::map::insert on another key does not change a lookup. -/
theorem lookup_mapInsert_ne {R : Type} {a k : String} (h : a ≠ k)
    (v : Spline R) (m : List (String × Spline R)) :
    List.lookup a (mapInsert k v m) = List.lookup a m := by
  induction m with
  | nil => exact lookup_cons_ne h v []
  | cons kv t ih =>
    obtain ⟨k1, v1⟩ := kv
    rw [mapInsert]
    by_cases hlt : k < k1
    · rw [if_pos hlt, lookup_cons_ne h v _]
    · rw [if_neg hlt]
      by_cases heq : k = k1
      · rw [if_pos heq]
      · rw [if_neg heq]
        by_cases hak : a = k1
        · subst hak
          rw [lookup_cons_self, lookup_cons_self]
        · rw [lookup_cons_ne hak, lookup_cons_ne hak]
          exact ih

/-- std::map::insert on a fresh key grows the map by exactly one entry. -/
theorem length_mapInsert_of_lookup_none {R : Type}
    {m : List (String × Spline R)} {k : String} (v : Spline R)
    (h : List.lookup k m = none) :
    (mapInsert k v m).length = m.length + 1 := by
  induction m with
  | nil => rfl
  | cons kv t ih =>
    obtain ⟨k1, v1⟩ := kv
    have hne : k ≠ k1 := by
      intro hkk
      rw [hkk, lookup_cons_self] at h
      exact Option.noConfusion h
    rw [lookup_cons_ne hne v1 t] at h
    rw [mapInsert]
    by_cases hlt : k < k1
    · rw [if_pos hlt]
      rfl
    · rw [if_neg hlt, if_neg hne]
      simp [ih h]

/-- A key with a successful lookup is among the map keys. -/
theorem lookup_isSome_mem {R : Type} {m : List (String × Spline R)} {k : String}
    (h : (List.lookup k m).isSome) : k ∈ m.map Prod.fst := by
  induction m with
  | nil => simp [List.lookup_nil] at h
  | cons kv t ih =>
    obtain ⟨k1, v1⟩ := kv
    by_cases heq : k = k1
    · simp [heq]
    · rw [lookup_cons_ne heq v1 t] at h
      simp [ih h]

/-- On a well-formed (key-sorted) map, inserting a key that is already present
is a no-op: std::map::insert keeps the existing entry. -/
theorem mapInsert_of_lookup_isSome {R : Type}
    {m : List (String × Spline R)} {k : String} (v : Spline R)
    (hwf : MapWF m) (h : (List.lookup k m).isSome) : mapInsert k v m = m := by
  induction m with
  | nil => simp [List.lookup_nil] at h
  | cons kv t ih =>
    obtain ⟨k1, v1⟩ := kv
    by_cases heq : k = k1
    · subst heq
      exact mapInsert_cons_self k v v1 t
    · rw [lookup_cons_ne heq v1 t] at h
      have hmem : k ∈ t.map Prod.fst := lookup_isSome_mem h
      have hk1k : k1 < k := (List.pairwise_cons.mp hwf).1 k hmem
      rw [mapInsert]
      rw [if_neg (asymm hk1k), if_neg heq]
      rw [ih (List.pairwise_cons.mp hwf).2 h]

/-- The keys after an insert are the inserted key or old keys. -/
theorem mapInsert_keys_mem {R : Type} {m : List (String × Spline R)}
    {k a : String} {v : Spline R}
    (h : a ∈ (mapInsert k v m).map Prod.fst) : a = k ∨ a ∈ m.map Prod.fst := by
  induction m with
  | nil =>
    simp [mapInsert] at h
    exact Or.inl h
  | cons kv t ih =>
    obtain ⟨k1, v1⟩ := kv
    rw [mapInsert] at h
    by_cases hlt : k < k1
    · rw [if_pos hlt] at h
      simp only [List.map_cons, List.mem_cons] at h
      rcases h with h | h | h
      · exact Or.inl h
      · exact Or.inr (by simp [h])
      · exact Or.inr (by simp [h])
    · rw [if_neg hlt] at h
      by_cases heq : k = k1
      · rw [if_pos heq] at h
        exact Or.inr h
      · rw [if_neg heq] at h
        simp only [List.map_cons, List.mem_cons] at h
        rcases h with h | h
        · exact Or.inr (by simp [h])
        · rcases ih h with h1 | h2
          · exact Or.inl h1
          · exact Or.inr (by simp [h2])

/-- Inserting a fresh key preserves map well-formedness. -/
theorem mapWF_mapInsert {R : Type} {m : List (String × Spline R)}
    (k : String) (v : Spline R) (hwf : MapWF m) : MapWF (mapInsert k v m) := by
  induction m with
  | nil => simp [mapInsert, MapWF]
  | cons kv t ih =>
    obtain ⟨k1, v1⟩ := kv
    have hcons := List.pairwise_cons.mp hwf
    rw [mapInsert]
    by_cases hlt : k < k1
    · rw [if_pos hlt]
      refine List.pairwise_cons.mpr ⟨?_, hwf⟩
      intro a ha
      simp only [List.map_cons, List.mem_cons] at ha
      rcases ha with h1 | h2
      · rw [h1]; exact hlt
      · exact lt_trans hlt (hcons.1 a h2)
    · rw [if_neg hlt]
      by_cases heq : k = k1
      · rw [if_pos heq]
        exact hwf
      · rw [if_neg heq]
        have hk1k : k1 < k := lt_of_le_of_ne (not_lt.mp hlt) (Ne.symm heq)
        refine List.pairwise_cons.mpr ⟨?_, ih hcons.2⟩
        intro a ha
        rcases mapInsert_keys_mem ha with h1 | h2
        · rw [h1]; exact hk1k
        · exact hcons.1 a h2

/-- Membership after a std::set insert. -/
theorem mem_setInsert {a k : String} {l : List String} :
    a ∈ setInsert k l ↔ a = k ∨ a ∈ l := by
  induction l with
  | nil => simp [setInsert]
  | cons k1 t ih =>
    rw [setInsert]
    by_cases hlt : k < k1
    · rw [if_pos hlt]
      simp
    · rw [if_neg hlt]
      by_cases heq : k = k1
      · rw [if_pos heq]
        subst heq
        simp only [List.mem_cons]
        constructor
        · exact Or.inr
        · rintro (h | h)
          · exact Or.inl (by rw [h])
          · exact h
      · rw [if_neg heq]
        simp only [List.mem_cons, ih]
        constructor
        · rintro (h | h | h)
          · exact Or.inr (Or.inl h)
          · exact Or.inl h
          · exact Or.inr (Or.inr h)
        · rintro (h | h | h)
          · exact Or.inr (Or.inl h)
          · exact Or.inl h
          · exact Or.inr (Or.inr h)

/-- The reader loop never touches the use-log-energy flag after the root
element set it. -/
theorem foldl_loadSplineEntry_fUseLogE {R : Type} (l : List (SplineXml R))
    (st : XSecSplineList R) :
    (l.foldl loadSplineEntry st).fUseLogE = st.fUseLogE := by
  induction l generalizing st with
  | nil => rfl
  | cons sp t ih =>
    rw [List.foldl_cons, ih]
    rfl

/-- The reader loop only ever adds names to fInitSet. -/
theorem foldl_loadSplineEntry_initSet_mono {R : Type} (l : List (SplineXml R))
    (st : XSecSplineList R) (k : String) (h : k ∈ st.fInitSet) :
    k ∈ (l.foldl loadSplineEntry st).fInitSet := by
  induction l generalizing st with
  | nil => exact h
  | cons sp t ih =>
    rw [List.foldl_cons]
    exact ih _ (mem_setInsert.mpr (Or.inr h))

/-- The spline map produced by the reader loop is the fold of the per-block
inserts over the starting map. -/
theorem foldl_loadSplineEntry_fSplineMap {R : Type} (l : List (SplineXml R))
    (st : XSecSplineList R) :
    (l.foldl loadSplineEntry st).fSplineMap
      = l.foldl
          (fun m sp => mapInsert sp.name { knots := sp.knots.take sp.nknots.toNat } m)
          st.fSplineMap := by
  induction l generalizing st with
  | nil => rfl
  | cons sp t ih =>
    rw [List.foldl_cons, List.foldl_cons, ih]
    rfl

/-- Inserting a key greater than every present key appends at the end. -/
theorem mapInsert_append_last {R : Type} {m : List (String × Spline R)}
    {k : String} (v : Spline R) (h : ∀ a ∈ m.map Prod.fst, a < k) :
    mapInsert k v m = m ++ [(k, v)] := by
  induction m with
  | nil => rfl
  | cons kv t ih =>
    obtain ⟨k1, v1⟩ := kv
    have hk1 : k1 < k := h k1 (by simp)
    rw [mapInsert]
    rw [if_neg (asymm hk1), if_neg (Ne.symm (ne_of_lt hk1))]
    rw [ih (fun a ha => h a (by simp [ha]))]
    rfl

/-- Re-inserting the entries of a well-formed map, in map order, after any
well-formed prefix whose keys all precede them, reproduces the map. -/
theorem foldl_mapInsert_rebuild {R : Type} (l acc : List (String × Spline R))
    (hwf : MapWF (acc ++ l)) :
    l.foldl (fun m kv => mapInsert kv.1 kv.2 m) acc = acc ++ l := by
  induction l generalizing acc with
  | nil => simp
  | cons kv t ih =>
    obtain ⟨k, v⟩ := kv
    have hwf' : (acc.map Prod.fst ++ ((k, v) :: t).map Prod.fst).Pairwise
        (fun a b => a < b) := by
      rw [← List.map_append]
      exact hwf
    have hkeys : ∀ a ∈ acc.map Prod.fst, a < k := by
      intro a ha
      exact (List.pairwise_append.mp hwf').2.2 a ha k (by simp)
    rw [List.foldl_cons]
    have hstep : mapInsert k v acc = acc ++ [(k, v)] :=
      mapInsert_append_last v hkeys
    rw [hstep]
    have hwf2 : MapWF ((acc ++ [(k, v)]) ++ t) := by
      rw [List.append_assoc, List.singleton_append]
      exact hwf
    rw [ih (acc ++ [(k, v)]) hwf2]
    rw [List.append_assoc, List.singleton_append]

/-- Filtering an insert of a fresh key whose predicate holds, over entries on
which the predicate fails, leaves exactly the inserted entry. -/
theorem filter_mapInsert {R : Type} {m : List (String × Spline R)}
    {k : String} {v : Spline R} {p : String × Spline R → Bool}
    (hfresh : k ∉ m.map Prod.fst) (hp : p (k, v) = true)
    (hm : ∀ x ∈ m, p x = false) :
    (mapInsert k v m).filter p = [(k, v)] := by
  induction m with
  | nil => simp [mapInsert, List.filter, hp]
  | cons kv t ih =>
    obtain ⟨k1, v1⟩ := kv
    have hne : k ≠ k1 := by
      intro hkk
      exact hfresh (by simp [hkk])
    have hp1 : p (k1, v1) = false := hm (k1, v1) (by simp)
    rw [mapInsert]
    by_cases hlt : k < k1
    · rw [if_pos hlt]
      rw [List.filter_cons_of_pos hp, List.filter_cons_of_neg (by simp [hp1])]
      rw [List.filter_eq_nil_iff.mpr
        (fun x hx => by simp [hm x (by simp [hx])])]
    · rw [if_neg hlt, if_neg hne]
      rw [List.filter_cons_of_neg (by simp [hp1])]
      exact ih (fun hmem => hfresh (by simp [hmem]))
        (fun x hx => hm x (by simp [hx]))

/-! ### Concrete instances used by counterexamples and witnesses -/

/-- A one-knot spline used as a pre-existing map entry. -/
def exSpline : Spline ℚ := { knots := [(0, 0)] }

/-- A store holding one spline under key "k", with empty initial-set. -/
def exStore : XSecSplineList ℚ :=
  { fUseLogE := false
    fNKnots := 10
    fEmin := 1
    fEmax := 2
    fSplineMap := [("k", exSpline)]
    fInitSet := [] }

/-- A document whose root element is not genie_xsec_spline_list. -/
def exBadFile : XmlFile ℚ :=
  { rootName := "bad_root", uselog := 0, splines := [] }

/-- A well-formed one-spline document with uselog = 1. -/
def exGoodFile : XmlFile ℚ :=
  { rootName := "genie_xsec_spline_list"
    uselog := 1
    splines := [{ name := "k2", nknots := 1, knots := [(1, 5)] }] }

/-- A concrete algorithm whose integral is identically zero. -/
def exAlg : XSecAlgorithmI ℚ :=
  { name := "alg", config := "conf", integral := fun _ _ => 0 }

/-- A concrete interaction with threshold 0 (below every e_min used here). -/
def exIt : Interaction ℚ := { asString := "int", threshold := 0 }

/-! ### Claim theorems -/

/-- Claim C7: BuildSplineKey is a pure function: for non-null algorithm and
interaction it returns name, configuration and canonical interaction string
joined by the slash delimiter (so equal inputs give equal keys, since it is a
function of exactly these data), and a null algorithm or interaction yields
the empty string. -/
theorem C7_build_spline_key {R : Type} (a : XSecAlgorithmI R) (i : Interaction R) :
    BuildSplineKey (some a) (some i) = a.name ++ "/" ++ a.config ++ "/" ++ i.asString
    ∧ (∀ it : Option (Interaction R),
        BuildSplineKey (none : Option (XSecAlgorithmI R)) it = "")
    ∧ (∀ al : Option (XSecAlgorithmI R),
        BuildSplineKey al (none : Option (Interaction R)) = "") := by
  refine ⟨rfl, fun it => rfl, fun al => ?_⟩
  cases al <;> rfl

/-- Claim C8: after SetNKnots(n) the stored default knot count is exactly 10
when n < 10 and exactly n when n ≥ 10. -/
theorem C8_set_nknots_floor {R : Type} (s : XSecSplineList R) (n : Int) :
    (SetNKnots s n).fNKnots = if n < 10 then 10 else n := rfl

/-- Claim C2 counterexample: loading an unopenable file (reader == NULL)
returns kXmlOK — not a distinct not-found status — and in non-merge mode
(keep = false) the pre-existing contents have already been cleared rather
than left untouched. -/
theorem C2_counterexample :
    (LoadFromXml exStore none false).1 = XmlParserStatus.kXmlOK
    ∧ (LoadFromXml exStore none false).2.fSplineMap = []
    ∧ exStore.fSplineMap ≠ [] :=
  ⟨rfl, rfl, by simp [exStore]⟩

/-- Claim C2 (amended): for a filename that cannot be opened, LoadFromXml
logs the failure but returns kXmlOK (the source has no distinct not-found
return); with keep = true the store is untouched, while with keep = false the
spline map has already been cleared before the open attempt, so the store
ends with an empty map. -/
theorem C2_amended_not_found {R : Type} (s : XSecSplineList R) :
    LoadFromXml s none true = (XmlParserStatus.kXmlOK, s)
    ∧ LoadFromXml s none false
        = (XmlParserStatus.kXmlOK, { s with fSplineMap := [] }) :=
  ⟨rfl, rfl⟩

/-- Claim C5: loading a document whose root element is not
genie_xsec_spline_list returns kXmlInvalidRoot, leaves the store unchanged
when keep = true, and leaves it cleared-but-empty when keep = false (the
clearing happens before parsing). -/
theorem C5_invalid_root {R : Type} (s : XSecSplineList R) (f : XmlFile R)
    (keep : Bool) (hroot : f.rootName ≠ "genie_xsec_spline_list") :
    (LoadFromXml s (some f) keep).1 = XmlParserStatus.kXmlInvalidRoot
    ∧ (keep = true → (LoadFromXml s (some f) keep).2 = s)
    ∧ (keep = false →
        (LoadFromXml s (some f) keep).2 = { s with fSplineMap := [] }) := by
  cases keep <;> simp [LoadFromXml, hroot]

/-- Witness for C5 at a concrete store and document. -/
theorem C5_witness :
    exBadFile.rootName ≠ "genie_xsec_spline_list"
    ∧ ((LoadFromXml exStore (some exBadFile) false).1 = XmlParserStatus.kXmlInvalidRoot
       ∧ (false = true → (LoadFromXml exStore (some exBadFile) false).2 = exStore)
       ∧ (false = false →
           (LoadFromXml exStore (some exBadFile) false).2
             = { exStore with fSplineMap := [] })) :=
  ⟨by decide, C5_invalid_root exStore exBadFile false (by decide)⟩

/-- Claim C9: every LoadFromXml call that reaches a valid root element (and
in this model then parses to completion and returns kXmlOK) overwrites the
store's use-log-energy flag with whether the uselog attribute parses to 1,
in both merge (keep = true) and non-merge modes. -/
theorem C9_load_overwrites_uselog {R : Type} (s : XSecSplineList R)
    (f : XmlFile R) (keep : Bool)
    (hroot : f.rootName = "genie_xsec_spline_list") :
    (LoadFromXml s (some f) keep).1 = XmlParserStatus.kXmlOK
    ∧ (LoadFromXml s (some f) keep).2.fUseLogE = (f.uselog == 1) := by
  cases keep <;>
    simp [LoadFromXml, hroot, foldl_loadSplineEntry_fUseLogE, SetLogE]

/-- Witness for C9: a merge-mode load of a uselog = 1 document over a store
whose flag was false. -/
theorem C9_witness :
    exGoodFile.rootName = "genie_xsec_spline_list"
    ∧ ((LoadFromXml exStore (some exGoodFile) true).1 = XmlParserStatus.kXmlOK
       ∧ (LoadFromXml exStore (some exGoodFile) true).2.fUseLogE
           = (exGoodFile.uselog == 1)) :=
  ⟨rfl, C9_load_overwrites_uselog exStore exGoodFile true rfl⟩

/-- Claim C10: nothing ever removes a key from fInitSet: CreateSpline leaves
it untouched, LoadFromXml only adds to it (a non-merge load clears only the
spline map, in every branch), and a key marked initial is suppressed by a
selective save (save_init = false) — even if the spline map entry it marked
is long gone. -/
theorem C10_initset_never_shrinks {R : Type} [LinearOrderedField R]
    (log10 pow10 : R → R) (s s' : XSecSplineList R) (alg : XSecAlgorithmI R)
    (it : Interaction R) (nknots : Int) (e_min e_max : R)
    (file : Option (XmlFile R)) (keep : Bool) (k : String) :
    (CreateSpline log10 pow10 s alg it nknots e_min e_max = some s' →
      s'.fInitSet = s.fInitSet)
    ∧ (k ∈ s.fInitSet → k ∈ ((LoadFromXml s file keep).2).fInitSet)
    ∧ (k ∈ s.fInitSet →
        k ∉ (SaveAsXml s false).splines.map SplineXml.name) := by
  refine ⟨?_, ?_, ?_⟩
  · intro h
    simp only [CreateSpline] at h
    split at h
    · rw [← Option.some.inj h]
    · exact Option.noConfusion h
  · intro hk
    cases file with
    | none => cases keep <;> exact hk
    | some f =>
      by_cases hroot : f.rootName = "genie_xsec_spline_list"
      · cases keep <;>
          · simp only [LoadFromXml, hroot, ne_eq, not_true_eq_false, if_false,
              if_true, Bool.false_eq_true, ite_false, ite_true]
            exact foldl_loadSplineEntry_initSet_mono _ _ _ hk
      · cases keep <;> simp [LoadFromXml, hroot] <;> exact hk
  · intro hk hmem
    rcases List.mem_map.mp hmem with ⟨sx, hsx, hname⟩
    simp only [SaveAsXml] at hsx
    rcases List.mem_map.mp hsx with ⟨kv, hkv, hsxeq⟩
    rcases List.mem_filter.mp hkv with ⟨_, hpred⟩
    have hkeq : kv.1 = k := by rw [← hname, ← hsxeq]; rfl
    rw [hkeq] at hpred
    simp [List.contains, List.elem_iff, hk] at hpred

/-- A store whose only key "k" is marked initial. -/
def exStoreInit : XSecSplineList ℚ :=
  { exStore with fInitSet := ["k"] }

/-- The store CreateSpline produces on exStoreInit. -/
def exCreated : XSecSplineList ℚ :=
  (CreateSpline id id exStoreInit exAlg exIt 10 1 2).getD exStoreInit

/-- Witness for C10: a concrete create, a concrete non-merge load and a
concrete selective save over a store whose key "k" is marked initial. -/
theorem C10_witness :
    (CreateSpline id id exStoreInit exAlg exIt 10 1 2 = some exCreated
     ∧ exCreated.fInitSet = exStoreInit.fInitSet)
    ∧ ("k" ∈ exStoreInit.fInitSet
       ∧ "k" ∈ ((LoadFromXml exStoreInit (some exGoodFile) false).2).fInitSet
       ∧ "k" ∉ (SaveAsXml exStoreInit false).splines.map SplineXml.name) :=
  ⟨⟨rfl,
    (C10_initset_never_shrinks id id exStoreInit exCreated exAlg exIt 10 1 2
      (some exGoodFile) false "k").1 rfl⟩,
   ⟨by decide,
    (C10_initset_never_shrinks id id exStoreInit exCreated exAlg exIt 10 1 2
      (some exGoodFile) false "k").2.1 (by decide),
    (C10_initset_never_shrinks id id exStoreInit exCreated exAlg exIt 10 1 2
      (some exGoodFile) false "k").2.2 (by decide)⟩⟩

/-- The number of knots planKnots emits: 5 below-threshold knots when the
threshold exceeds e_min, plus the remaining loop count. -/
theorem planKnots_length {R : Type} [LinearOrderedField R] (log10 pow10 : R → R)
    (useLogE : Bool) (nknots : Int) (e_min e_max Ethr : R) :
    (planKnots log10 pow10 useLogE nknots e_min e_max Ethr).length
      = ((if e_min < Ethr then (5 : Int) else 0).toNat
          + (nknots - (if e_min < Ethr then (5 : Int) else 0)).toNat) := by
  unfold planKnots
  rw [List.length_append, List.length_map, List.length_map, List.length_range,
    List.length_range]

/-- A store already holding an entry under the very key CreateSpline builds
for exAlg and exIt. -/
def exStoreC1 : XSecSplineList ℚ :=
  { fUseLogE := false
    fNKnots := 10
    fEmin := 1
    fEmax := 2
    fSplineMap := [("alg/conf/int", exSpline)]
    fInitSet := [] }

/-- The store after the first CreateSpline call on exStoreC1. -/
def exC1s1 : XSecSplineList ℚ :=
  (CreateSpline id id exStoreC1 exAlg exIt 10 1 2).getD exStoreC1

/-- The store after the second, identical CreateSpline call. -/
def exC1s2 : XSecSplineList ℚ :=
  (CreateSpline id id exC1s1 exAlg exIt 10 1 2).getD exStoreC1

/-- Claim C1 counterexample: with an entry already stored under the computed
key, two identical CreateSpline calls leave the original entry in place —
the store does not map the key to the spline built by the second call
(std::map::insert never overwrites), though the key count is unchanged. -/
theorem C1_counterexample :
    CreateSpline id id exStoreC1 exAlg exIt 10 1 2 = some exC1s1
    ∧ CreateSpline id id exC1s1 exAlg exIt 10 1 2 = some exC1s2
    ∧ List.lookup "alg/conf/int" exC1s2.fSplineMap = some exSpline
    ∧ exSpline ≠ createdSpline id id exC1s1 exAlg exIt 10 1 2
    ∧ (GetSplineKeys exC1s2).length = (GetSplineKeys exC1s1).length := by
  have hkey : BuildSplineKey (some exAlg) (some exIt) = "alg/conf/int" := by decide
  have hmap1 : exC1s1.fSplineMap = [("alg/conf/int", exSpline)] := by
    have h0 : exC1s1.fSplineMap
        = mapInsert (BuildSplineKey (some exAlg) (some exIt))
            (createdSpline id id exStoreC1 exAlg exIt 10 1 2)
            [("alg/conf/int", exSpline)] := rfl
    rw [h0, hkey, mapInsert_cons_self]
  have hmap2 : exC1s2.fSplineMap = [("alg/conf/int", exSpline)] := by
    have h0 : exC1s2.fSplineMap
        = mapInsert (BuildSplineKey (some exAlg) (some exIt))
            (createdSpline id id exC1s1 exAlg exIt 10 1 2)
            exC1s1.fSplineMap := rfl
    rw [h0, hmap1, hkey, mapInsert_cons_self]
  refine ⟨rfl, rfl, ?_, ?_, ?_⟩
  · rw [hmap2]
    exact lookup_cons_self _ _ _
  · intro heq
    have hlen : exSpline.knots.length
        = (createdSpline id id exC1s1 exAlg exIt 10 1 2).knots.length := by
      rw [← heq]
    have hL : (createdSpline id id exC1s1 exAlg exIt 10 1 2).knots.length
        = (planKnots id id false (10 : Int) (1 : ℚ) (2 : ℚ) (0 : ℚ)).length := by
      rw [show (createdSpline id id exC1s1 exAlg exIt 10 1 2).knots
          = (planKnots id id false (10 : Int) (1 : ℚ) (2 : ℚ) (0 : ℚ)).map
              (fun e => (e, exAlg.integral exIt e)) from rfl]
      rw [List.length_map]
    rw [hL, planKnots_length] at hlen
    norm_num [exSpline] at hlen
    exact absurd hlen (by decide)
  · simp [GetSplineKeys, hmap1, hmap2]

/-- Claim C1 (amended): calling CreateSpline twice with identical arguments
never duplicates the key (the key count is unchanged) and the second call
never changes the stored entry; when no entry pre-existed under the computed
key, the store afterwards maps the key to the spline value both calls build.
If an entry already existed, std::map::insert keeps it (see the
counterexample), contrary to the claimed overwrite. -/
theorem C1_amended_recreate {R : Type} [LinearOrderedField R]
    (log10 pow10 : R → R) (s s1 s2 : XSecSplineList R)
    (alg : XSecAlgorithmI R) (it : Interaction R)
    (nknots : Int) (e_min e_max : R) (hwf : MapWF s.fSplineMap)
    (h1 : CreateSpline log10 pow10 s alg it nknots e_min e_max = some s1)
    (h2 : CreateSpline log10 pow10 s1 alg it nknots e_min e_max = some s2) :
    (GetSplineKeys s2).length = (GetSplineKeys s1).length
    ∧ List.lookup (BuildSplineKey (some alg) (some it)) s2.fSplineMap
        = List.lookup (BuildSplineKey (some alg) (some it)) s1.fSplineMap
    ∧ (List.lookup (BuildSplineKey (some alg) (some it)) s.fSplineMap = none →
        List.lookup (BuildSplineKey (some alg) (some it)) s2.fSplineMap
          = some (createdSpline log10 pow10 s1 alg it nknots e_min e_max)) := by
  simp only [CreateSpline] at h1 h2
  split at h1
  case isFalse => exact Option.noConfusion h1
  case isTrue hc =>
  have hs1 := Option.some.inj h1
  split at h2
  case isFalse => exact Option.noConfusion h2
  case isTrue hc2 =>
  have hs2 := Option.some.inj h2
  have hmap1 : s1.fSplineMap
      = mapInsert (BuildSplineKey (some alg) (some it))
          (createdSpline log10 pow10 s alg it nknots e_min e_max)
          s.fSplineMap := by rw [← hs1]
  have hmap2 : s2.fSplineMap
      = mapInsert (BuildSplineKey (some alg) (some it))
          (createdSpline log10 pow10 s1 alg it nknots e_min e_max)
          s1.fSplineMap := by rw [← hs2]
  rcases hlk : List.lookup (BuildSplineKey (some alg) (some it)) s.fSplineMap
    with _ | w
  · have hlk1 : List.lookup (BuildSplineKey (some alg) (some it)) s1.fSplineMap
        = some (createdSpline log10 pow10 s alg it nknots e_min e_max) := by
      rw [hmap1]
      exact lookup_mapInsert_self _ hlk
    have hwf1 : MapWF s1.fSplineMap := by
      rw [hmap1]
      exact mapWF_mapInsert _ _ hwf
    have hfix : s2.fSplineMap = s1.fSplineMap := by
      rw [hmap2]
      exact mapInsert_of_lookup_isSome _ hwf1 (by rw [hlk1]; rfl)
    have hsame : createdSpline log10 pow10 s1 alg it nknots e_min e_max
        = createdSpline log10 pow10 s alg it nknots e_min e_max := by
      rw [← hs1]
      exact rfl
    refine ⟨by rw [GetSplineKeys, GetSplineKeys, hfix], by rw [hfix], ?_⟩
    intro _
    rw [hfix, hlk1, hsame]
  · have hsome1 : (List.lookup (BuildSplineKey (some alg) (some it))
        s1.fSplineMap).isSome := by
      rw [hmap1, mapInsert_of_lookup_isSome _ hwf (by rw [hlk]; rfl), hlk]
      rfl
    have hfix : s2.fSplineMap = s1.fSplineMap := by
      have hwf1 : MapWF s1.fSplineMap := by
        rw [hmap1, mapInsert_of_lookup_isSome _ hwf (by rw [hlk]; rfl)]
        exact hwf
      rw [hmap2]
      exact mapInsert_of_lookup_isSome _ hwf1 hsome1
    refine ⟨by rw [GetSplineKeys, GetSplineKeys, hfix], by rw [hfix], ?_⟩
    intro hnone
    simp [hlk] at hnone

/-- The empty store used by the C1 witness. -/
def exStoreE : XSecSplineList ℚ :=
  { exStoreC1 with fSplineMap := [] }

/-- First create on the empty store. -/
def exE1 : XSecSplineList ℚ :=
  (CreateSpline id id exStoreE exAlg exIt 10 1 2).getD exStoreE

/-- Second, identical create. -/
def exE2 : XSecSplineList ℚ :=
  (CreateSpline id id exE1 exAlg exIt 10 1 2).getD exStoreE

/-- Witness for the amended C1 at a concrete store with no pre-existing
entry. -/
theorem C1_witness :
    (MapWF exStoreE.fSplineMap
     ∧ CreateSpline id id exStoreE exAlg exIt 10 1 2 = some exE1
     ∧ CreateSpline id id exE1 exAlg exIt 10 1 2 = some exE2)
    ∧ (GetSplineKeys exE2).length = (GetSplineKeys exE1).length :=
  ⟨⟨by simp [MapWF, exStoreE], rfl, rfl⟩,
   (C1_amended_recreate id id exStoreE exE1 exE2 exAlg exIt 10 1 2
     (by simp [MapWF, exStoreE]) rfl rfl).1⟩

/-- Claim C3: a store whose entries did not come from a load (empty
initial-set, as after populating a fresh store only via CreateSpline), saved
and re-loaded in non-merge mode, reproduces the spline map exactly: the same
keys and the same (energy, cross-section) knot pairs (the model stores exact
field elements, subsuming the claim's floating-point tolerance). -/
theorem C3_save_load_roundtrip {R : Type} (s : XSecSplineList R)
    (save_init : Bool) (hwf : MapWF s.fSplineMap) (hinit : s.fInitSet = []) :
    (LoadFromXml s (some (SaveAsXml s save_init)) false).1 = XmlParserStatus.kXmlOK
    ∧ (LoadFromXml s (some (SaveAsXml s save_init)) false).2.fSplineMap
        = s.fSplineMap := by
  have hfilter : s.fSplineMap.filter
      (fun kv => !(s.fInitSet.contains kv.1 && !save_init)) = s.fSplineMap := by
    rw [hinit]
    exact List.filter_eq_self.mpr (fun a _ => rfl)
  constructor
  · simp [LoadFromXml, SaveAsXml]
  · simp only [LoadFromXml]
    rw [if_neg (by simp [SaveAsXml])]
    rw [foldl_loadSplineEntry_fSplineMap]
    have hsplines : (SaveAsXml s save_init).splines
        = s.fSplineMap.map (fun kv => splineSaveAsXml kv.1 kv.2) := by
      simp only [SaveAsXml]
      rw [hfilter]
    rw [hsplines, List.foldl_map]
    simp only [splineSaveAsXml, Int.toNat_natCast, List.take_length]
    have hwf0 : MapWF ([] ++ s.fSplineMap) := by simpa using hwf
    have := foldl_mapInsert_rebuild s.fSplineMap [] hwf0
    simpa using this

/-- Witness for C3 on a one-entry store built without any load. -/
theorem C3_witness :
    (MapWF exStore.fSplineMap ∧ exStore.fInitSet = [])
    ∧ ((LoadFromXml exStore (some (SaveAsXml exStore true)) false).1
          = XmlParserStatus.kXmlOK
       ∧ (LoadFromXml exStore (some (SaveAsXml exStore true)) false).2.fSplineMap
          = exStore.fSplineMap) :=
  ⟨⟨by simp [MapWF, exStore], rfl⟩,
   C3_save_load_roundtrip exStore true (by simp [MapWF, exStore]) rfl⟩

/-- Claim C6: starting from a store whose keys are all in the initial-set,
one CreateSpline with a fresh key, then SaveAsXml with save_init = false and
a non-merge LoadFromXml of the written document, leaves a store holding
exactly the newly created key. -/
theorem C6_selective_persistence {R : Type} [LinearOrderedField R]
    (log10 pow10 : R → R) (s s' : XSecSplineList R) (alg : XSecAlgorithmI R)
    (it : Interaction R) (nknots : Int) (e_min e_max : R)
    (hkeys : ∀ k ∈ GetSplineKeys s, k ∈ s.fInitSet)
    (hnew : BuildSplineKey (some alg) (some it) ∉ s.fInitSet)
    (hc : CreateSpline log10 pow10 s alg it nknots e_min e_max = some s') :
    GetSplineKeys (LoadFromXml s' (some (SaveAsXml s' false)) false).2
      = [BuildSplineKey (some alg) (some it)] := by
  simp only [CreateSpline] at hc
  split at hc
  case isFalse => exact Option.noConfusion hc
  case isTrue hcond =>
  have hs' := Option.some.inj hc
  have hmap : s'.fSplineMap
      = mapInsert (BuildSplineKey (some alg) (some it))
          (createdSpline log10 pow10 s alg it nknots e_min e_max)
          s.fSplineMap := by rw [← hs']
  have hset : s'.fInitSet = s.fInitSet := by rw [← hs']
  have hfresh : BuildSplineKey (some alg) (some it) ∉ s.fSplineMap.map Prod.fst :=
    fun hmem => hnew (hkeys _ hmem)
  have hsplines : (SaveAsXml s' false).splines
      = [splineSaveAsXml (BuildSplineKey (some alg) (some it))
          (createdSpline log10 pow10 s alg it nknots e_min e_max)] := by
    simp only [SaveAsXml]
    rw [hmap, hset]
    rw [filter_mapInsert hfresh (by simp [hnew])
      (fun kv hkv => by
        have hmem : kv.1 ∈ s.fInitSet :=
          hkeys kv.1 (List.mem_map_of_mem Prod.fst hkv)
        simp [hmem])]
    rfl
  have hload : (LoadFromXml s' (some (SaveAsXml s' false)) false).2.fSplineMap
      = ((SaveAsXml s' false).splines).foldl
          (fun m sp => mapInsert sp.name { knots := sp.knots.take sp.nknots.toNat } m)
          [] := by
    simp only [LoadFromXml]
    rw [if_neg (by simp [SaveAsXml])]
    rw [foldl_loadSplineEntry_fSplineMap]
    rfl
  rw [GetSplineKeys, hload, hsplines]
  simp [splineSaveAsXml, mapInsert]

/-- Witness for C6: exStoreInit has its only key "k" in the initial-set;
creating the fresh key built from exAlg and exIt, saving without the initial
set and re-loading leaves exactly that key. -/
theorem C6_witness :
    ((∀ k ∈ GetSplineKeys exStoreInit, k ∈ exStoreInit.fInitSet)
     ∧ BuildSplineKey (some exAlg) (some exIt) ∉ exStoreInit.fInitSet
     ∧ CreateSpline id id exStoreInit exAlg exIt 10 1 2 = some exCreated)
    ∧ GetSplineKeys
        (LoadFromXml exCreated (some (SaveAsXml exCreated false)) false).2
      = [BuildSplineKey (some exAlg) (some exIt)] :=
  ⟨⟨by decide, by decide, rfl⟩,
   C6_selective_persistence id id exStoreInit exCreated exAlg exIt 10 1 2
     (by decide) (by decide) rfl⟩

/-- No element of a map over a range is counted when the bound is below all
sampled values. -/
theorem countP_map_range_eq_zero {R : Type} [LinearOrderedField R] (g : Nat → R)
    (m : Nat) (E0 : R) (hg : ∀ i, E0 ≤ g i) :
    ((List.range m).map g).countP (fun x => decide (x < E0)) = 0 := by
  apply List.countP_eq_zero.mpr
  intro a ha
  rcases List.mem_map.mp ha with ⟨i, _, rfl⟩
  simp [not_lt.mpr (hg i)]

/-- Every element of a map over a range is counted when every sampled value is
below the bound. -/
theorem countP_map_range_eq_length {R : Type} [LinearOrderedField R]
    (g : Nat → R) (m : Nat) (E0 : R) (hg : ∀ i, i < m → g i < E0) :
    ((List.range m).map g).countP (fun x => decide (x < E0)) = m := by
  have h : ((List.range m).map g).countP (fun x => decide (x < E0))
      = ((List.range m).map g).length := by
    apply List.countP_eq_length.mpr
    intro a ha
    rcases List.mem_map.mp ha with ⟨i, hi, rfl⟩
    simp [hg i (List.mem_range.mp hi)]
  rw [h, List.length_map, List.length_range]

/-- Claim C4: for a threshold strictly between the effective bounds, the
planned knot sequence contains a knot equal to max(Ethr, Emin); it has
exactly 5 knots strictly below that value when Ethr > Emin (and 0 in the
vacuous Ethr ≤ Emin case); the sub-threshold knots are the linear spacing
e_min + i*(Ethr - Emin)/5 for i = 0..4; and the sequence has exactly the
requested number of knots.  Stated for any monotone log10/pow10 pair with
pow10 a left inverse of log10 on positives — in particular for Real with
logb 10 and the power 10^x (see the witness). -/
theorem C4_threshold_knots {R : Type} [LinearOrderedField R]
    (log10 pow10 : R → R) (useLogE : Bool) (nknots : Int)
    (e_min e_max Ethr : R)
    (hemin : 0 < e_min) (h1 : e_min < Ethr) (h2 : Ethr < e_max)
    (hn : 7 ≤ nknots)
    (hinv : ∀ x : R, 0 < x → pow10 (log10 x) = x)
    (hlogm : ∀ x y : R, 0 < x → x ≤ y → log10 x ≤ log10 y)
    (hpowm : ∀ x y : R, x ≤ y → pow10 x ≤ pow10 y) :
    max Ethr e_min ∈ planKnots log10 pow10 useLogE nknots e_min e_max Ethr
    ∧ (e_min < Ethr →
        (planKnots log10 pow10 useLogE nknots e_min e_max Ethr).countP
          (fun x => decide (x < max Ethr e_min)) = 5)
    ∧ (Ethr ≤ e_min →
        (planKnots log10 pow10 useLogE nknots e_min e_max Ethr).countP
          (fun x => decide (x < max Ethr e_min)) = 0)
    ∧ (∀ i : Nat, i < 5 →
        (planKnots log10 pow10 useLogE nknots e_min e_max Ethr).get? i
          = some (e_min + (i : R) * ((Ethr - e_min) / 5)))
    ∧ (planKnots log10 pow10 useLogE nknots e_min e_max Ethr).length
        = nknots.toNat := by
  have hE0 : max Ethr e_min = Ethr := max_eq_left (le_of_lt h1)
  have hE0pos : 0 < max Ethr e_min := by
    rw [hE0]
    exact lt_trans hemin h1
  have hden : (0 : R) < ((nknots - 5 : Int) : R) - 1 := by
    have h2le : (2 : Int) ≤ nknots - 5 := by omega
    have hcast : ((2 : Int) : R) ≤ ((nknots - 5 : Int) : R) := Int.cast_le.mpr h2le
    have h2R : ((2 : Int) : R) = 2 := by push_cast; ring
    rw [h2R] at hcast
    linarith
  have hdEaLin : (0 : R) ≤ (e_max - max Ethr e_min) / (((nknots - 5 : Int) : R) - 1) := by
    apply div_nonneg _ (le_of_lt hden)
    rw [hE0]
    linarith
  have hdEaLog : (0 : R)
      ≤ (log10 e_max - log10 (max Ethr e_min)) / (((nknots - 5 : Int) : R) - 1) := by
    apply div_nonneg _ (le_of_lt hden)
    have := hlogm (max Ethr e_min) e_max hE0pos (by rw [hE0]; linarith)
    linarith
  have habove : ∀ i : Nat, max Ethr e_min
      ≤ (if useLogE = true then
          pow10 (log10 (max Ethr e_min) + (i : R) *
            (if useLogE = true then
              (log10 e_max - log10 (max Ethr e_min)) / (((nknots - 5 : Int) : R) - 1)
            else (e_max - max Ethr e_min) / (((nknots - 5 : Int) : R) - 1)))
        else max Ethr e_min + (i : R) *
            (if useLogE = true then
              (log10 e_max - log10 (max Ethr e_min)) / (((nknots - 5 : Int) : R) - 1)
            else (e_max - max Ethr e_min) / (((nknots - 5 : Int) : R) - 1))) := by
    intro i
    cases husel : useLogE with
    | false =>
      simp only [Bool.false_eq_true, if_false]
      have := mul_nonneg (Nat.cast_nonneg i : (0 : R) ≤ (i : R)) hdEaLin
      linarith
    | true =>
      simp only [if_true]
      have hstep : log10 (max Ethr e_min)
          ≤ log10 (max Ethr e_min) + (i : R) *
            ((log10 e_max - log10 (max Ethr e_min)) / (((nknots - 5 : Int) : R) - 1)) := by
        have := mul_nonneg (Nat.cast_nonneg i : (0 : R) ≤ (i : R)) hdEaLog
        linarith
      have := hpowm _ _ hstep
      rw [hinv _ hE0pos] at this
      exact this
  have hbelow : ∀ i : Nat, i < 5 →
      e_min + (i : R) * ((Ethr - e_min) / (((5 : Int)) : R)) < max Ethr e_min := by
    intro i hi
    rw [hE0]
    have h5 : (((5 : Int)) : R) = (5 : R) := by push_cast; ring
    rw [h5]
    have hpos : (0 : R) < (Ethr - e_min) / 5 := by
      apply div_pos (by linarith) (by norm_num)
    have hicast : (i : R) < 5 := by
      have : (i : R) < ((5 : Nat) : R) := Nat.cast_lt.mpr hi
      simpa using this
    have := mul_lt_mul_of_pos_right hicast hpos
    have h5mul : (5 : R) * ((Ethr - e_min) / 5) = Ethr - e_min := by
      field_simp
    linarith [h5mul ▸ this]
  refine ⟨?_, ?_, ?_, ?_, ?_⟩
  · simp only [planKnots, if_pos h1]
    refine List.mem_append_right _ (List.mem_map.mpr ⟨0, List.mem_range.mpr ?_, ?_⟩)
    · omega
    · cases husel : useLogE with
      | false =>
        simp only [Bool.false_eq_true, if_false, Nat.cast_zero, zero_mul, add_zero]
      | true =>
        simp only [if_true, Nat.cast_zero, zero_mul, add_zero]
        exact hinv _ hE0pos
  · intro _
    simp only [planKnots, if_pos h1]
    rw [List.countP_append]
    rw [countP_map_range_eq_length _ _ _ (fun i hi => hbelow i (by simpa using hi))]
    rw [countP_map_range_eq_zero _ _ _ habove]
    simp
  · intro hle
    exact absurd h1 (not_lt.mpr hle)
  · intro i hi
    simp only [planKnots, if_pos h1]
    rw [List.get?_append (by simpa using hi), List.get?_map, List.get?_range (by simpa using hi)]
    have h5 : (((5 : Int)) : R) = (5 : R) := by push_cast; ring
    rw [h5]
    rfl
  · rw [planKnots_length, if_pos h1]
    omega

/-- Witness for C4 over the rationals in linear mode (log10 and pow10
instantiated by the identity, which satisfies the monotonicity and inverse
hypotheses), with e_min = 1, Ethr = 2, e_max = 4 and 10 requested knots. -/
theorem C4_witness :
    max (2 : ℚ) 1 ∈ planKnots (id : ℚ → ℚ) id false 10 1 4 2
    ∧ (planKnots (id : ℚ → ℚ) id false 10 1 4 2).countP
        (fun x => decide (x < max (2 : ℚ) 1)) = 5
    ∧ (planKnots (id : ℚ → ℚ) id false 10 1 4 2).length = (10 : Int).toNat :=
  ⟨(C4_threshold_knots (id : ℚ → ℚ) id false 10 1 4 2 (by norm_num) (by norm_num)
      (by norm_num) (by norm_num) (fun x _ => rfl) (fun x y _ h => h)
      (fun x y h => h)).1,
   (C4_threshold_knots (id : ℚ → ℚ) id false 10 1 4 2 (by norm_num) (by norm_num)
      (by norm_num) (by norm_num) (fun x _ => rfl) (fun x y _ h => h)
      (fun x y h => h)).2.1 (by norm_num),
   (C4_threshold_knots (id : ℚ → ℚ) id false 10 1 4 2 (by norm_num) (by norm_num)
      (by norm_num) (by norm_num) (fun x _ => rfl) (fun x y _ h => h)
      (fun x y h => h)).2.2.2.2⟩

end genie
